import Mathlib

/-! Verification of the twisted-torus mesh generator from `add_mesh_torus.py`.

The development is a shallow embedding of the script's core functions:

* `add_torus` (vertex positions and quad-face index list, including the
  twist-dependent seam wrap) — embedded as `torusVec` / `vertsFlat` /
  `faceQuad` / `facesFlat` / `add_torus`;
* the mesh loop layout built in `AddTorus.execute`
  (`loop_start = range(0, nbr_loops, 4)`, `loop_total = (4,)*nbr_polys`) —
  embedded as `loopStarts` / `loopTotals`, with `vertexAt` extracting the
  3D point of a vertex index from the flat coordinate buffer exactly as
  `mesh.vertices.foreach_set("co", verts_loc)` consumes it;
* `add_uvs` (grid UV mapper) — embedded as `gridInner` / `gridOuter` /
  `add_uvs_writes`;
* `add_uvs_one_ribbon` (ribbon UV mapper) — embedded as `ribbonFaces` /
  `ribbonLoop` / `add_uvs_one_ribbon_writes`;
* the radius-mode conversions of `AddTorus.mode_update_callback` and
  `AddTorus.execute` — embedded as `ext_int_radii` / `major_minor_radii`.

Real-valued geometry is embedded over `ℝ` (exact real arithmetic in place of
floating point); the UV computations, whose float arithmetic is exact rational
accumulation, are embedded over `ℚ`.  UV layers are modelled as the final
state of the sequence of `uv_data[loop].uv = ...` writes, a map from loop
index to an optional UV pair (`applyWrites`), where polygon `k` owns loop
indices `4*k .. 4*k+3` as set up by `execute`.
-/

namespace TorusSpec

/-- Action of `mathutils.Matrix.Rotation(angle, 3, 'Z')` on a 3D point:
rotation about the Z axis. -/
noncomputable def rotZ (angle : ℝ) (v : ℝ × ℝ × ℝ) : ℝ × ℝ × ℝ :=
  (v.1 * Real.cos angle - v.2.1 * Real.sin angle,
   v.1 * Real.sin angle + v.2.1 * Real.cos angle,
   v.2.2)

/-- `twist_step_angle = ((pi_2 / minor_seg) / major_seg) * section_twist`
(line 40 of the source). -/
noncomputable def twist_step_angle (minor_seg major_seg section_twist : ℕ) : ℝ :=
  ((2 * Real.pi / minor_seg) / major_seg) * section_twist

/-- The vertex created for `(major_index, minor_index)` in the body of the
double loop of `add_torus` (lines 46-57): the cross-section point
`(major_rad + cos(angle)*minor_rad, 0, sin(angle)*minor_rad)` with
`angle = pi_2 * minor_index / minor_seg + section_angle + major_index *
twist_step_angle`, rotated about Z by `(major_index / major_seg) * pi_2`. -/
noncomputable def torusVec (major_rad minor_rad : ℝ) (major_seg minor_seg : ℕ)
    (section_angle : ℝ) (section_twist : ℕ) (major_index minor_index : ℕ) : ℝ × ℝ × ℝ :=
  rotZ (((major_index : ℝ) / major_seg) * (2 * Real.pi))
    (major_rad +
       Real.cos (2 * Real.pi * minor_index / minor_seg + section_angle +
           major_index * twist_step_angle minor_seg major_seg section_twist) * minor_rad,
     0,
     Real.sin (2 * Real.pi * minor_index / minor_seg + section_angle +
         major_index * twist_step_angle minor_seg major_seg section_twist) * minor_rad)

/-- The flat coordinate buffer `verts`: `verts.extend(vec[:])` appends the
three coordinates of each vertex, major ring by major ring, minor index by
minor index. -/
noncomputable def vertsFlat (major_rad minor_rad : ℝ) (major_seg minor_seg : ℕ)
    (section_angle : ℝ) (section_twist : ℕ) : List ℝ :=
  (List.range major_seg).flatMap fun major_index =>
    (List.range minor_seg).flatMap fun minor_index =>
      [(torusVec major_rad minor_rad major_seg minor_seg section_angle section_twist
          major_index minor_index).1,
       (torusVec major_rad minor_rad major_seg minor_seg section_angle section_twist
          major_index minor_index).2.1,
       (torusVec major_rad minor_rad major_seg minor_seg section_angle section_twist
          major_index minor_index).2.2]

/-- The 3D point of vertex `k`, read from the flat buffer the way
`mesh.vertices.foreach_set("co", verts_loc)` does: coordinates
`3*k, 3*k+1, 3*k+2`. -/
noncomputable def vertexAt (major_rad minor_rad : ℝ) (major_seg minor_seg : ℕ)
    (section_angle : ℝ) (section_twist : ℕ) (k : ℕ) : ℝ × ℝ × ℝ :=
  ((vertsFlat major_rad minor_rad major_seg minor_seg section_angle section_twist).getD (3 * k) 0,
   (vertsFlat major_rad minor_rad major_seg minor_seg section_angle section_twist).getD
      (3 * k + 1) 0,
   (vertsFlat major_rad minor_rad major_seg minor_seg section_angle section_twist).getD
      (3 * k + 2) 0)

/-- The seam wrap of lines 70-75: an index at or beyond `tot_verts` is
replaced by `(idx - tot_verts + section_twist) % minor_seg`. -/
def wrapIdx (tot_verts minor_seg section_twist idx : ℕ) : ℕ :=
  if tot_verts ≤ idx then (idx - tot_verts + section_twist) % minor_seg else idx

/-- The quad emitted for `(major_index, minor_index)` (lines 61-77), as the
ordered tuple `(i1, i3, i4, i2)` of line 77.  `i1` is the running vertex
counter, equal to `major_index * minor_seg + minor_index`. -/
def faceQuad (major_seg minor_seg section_twist major_index minor_index : ℕ) :
    ℕ × ℕ × ℕ × ℕ :=
  let tot_verts := major_seg * minor_seg
  let i1 := major_index * minor_seg + minor_index
  let i2 := if 2 < minor_seg ∧ minor_index + 1 = minor_seg
    then major_index * minor_seg else i1 + 1
  let i3 := i1 + minor_seg
  let i4 := if 2 < minor_seg ∧ minor_index + 1 = minor_seg
    then major_index * minor_seg + minor_seg else i3 + 1
  (i1, wrapIdx tot_verts minor_seg section_twist i3,
       wrapIdx tot_verts minor_seg section_twist i4,
       wrapIdx tot_verts minor_seg section_twist i2)

/-- The flat face index list `faces`: `faces.extend([i1, i3, i4, i2])` for
each vertex, in loop order. -/
def facesFlat (major_seg minor_seg section_twist : ℕ) : List ℕ :=
  (List.range major_seg).flatMap fun major_index =>
    (List.range minor_seg).flatMap fun minor_index =>
      [(faceQuad major_seg minor_seg section_twist major_index minor_index).1,
       (faceQuad major_seg minor_seg section_twist major_index minor_index).2.1,
       (faceQuad major_seg minor_seg section_twist major_index minor_index).2.2.1,
       (faceQuad major_seg minor_seg section_twist major_index minor_index).2.2.2]

/-- `add_torus` returns the flat vertex buffer and the flat face list. -/
noncomputable def add_torus (major_rad minor_rad : ℝ) (major_seg minor_seg : ℕ)
    (section_angle : ℝ) (section_twist : ℕ) : List ℝ × List ℕ :=
  (vertsFlat major_rad minor_rad major_seg minor_seg section_angle section_twist,
   facesFlat major_seg minor_seg section_twist)

/-- `mesh.polygons.foreach_set("loop_start", range(0, nbr_loops, 4))` from
`AddTorus.execute`. -/
def loopStarts (nbr_loops : ℕ) : List ℕ :=
  (List.range ((nbr_loops + 3) / 4)).map fun k => 4 * k

/-- `mesh.polygons.foreach_set("loop_total", (4,) * nbr_polys)` from
`AddTorus.execute`. -/
def loopTotals (nbr_polys : ℕ) : List ℕ :=
  List.replicate nbr_polys 4

/-- Euclidean distance between two 3D points. -/
noncomputable def dist3 (a b : ℝ × ℝ × ℝ) : ℝ :=
  Real.sqrt ((a.1 - b.1) ^ 2 + (a.2.1 - b.2.1) ^ 2 + (a.2.2 - b.2.2) ^ 2)

/-- Center of major ring `major_index`: the point `(major_rad, 0, 0)` rotated
about Z by the ring's rotation angle. -/
noncomputable def ringCenter (major_rad : ℝ) (major_seg major_index : ℕ) : ℝ × ℝ × ℝ :=
  rotZ (((major_index : ℝ) / major_seg) * (2 * Real.pi)) (major_rad, 0, 0)

/-- One face visit of a UV mapper: the four values written to
`uv_data[loops[0]] .. uv_data[loops[3]]` of polygon `face`. -/
structure UVWrite where
  face : ℕ
  uv0 : ℚ × ℚ
  uv1 : ℚ × ℚ
  uv2 : ℚ × ℚ
  uv3 : ℚ × ℚ

/-- Effect of one `UVWrite` on the loop-indexed UV layer: polygon `face`
owns loop indices `4*face .. 4*face+3` (its `loop_start` is `4*face` and its
`loop_total` is `4`). -/
def applyW (g : ℕ → Option (ℚ × ℚ)) (w : UVWrite) : ℕ → Option (ℚ × ℚ) :=
  fun l =>
    if l = 4 * w.face then some w.uv0
    else if l = 4 * w.face + 1 then some w.uv1
    else if l = 4 * w.face + 2 then some w.uv2
    else if l = 4 * w.face + 3 then some w.uv3
    else g l

/-- Fold a sequence of UV writes over an initial UV layer (later writes win). -/
def applyWritesFrom (g : ℕ → Option (ℚ × ℚ)) (ws : List UVWrite) : ℕ → Option (ℚ × ℚ) :=
  ws.foldl applyW g

/-- The UV layer resulting from a sequence of writes on a fresh
(everywhere-unset) layer, as `mesh.uv_layers.new()` provides it. -/
def applyWrites (ws : List UVWrite) : ℕ → Option (ℚ × ℚ) :=
  applyWritesFrom (fun _ => none) ws

/-- Visit order of `add_uvs_one_ribbon` (lines 135-140): for each `offset`
in `range(minor_seg)` with `off = (offset * section_twist) % minor_seg`, the
polygons `idx * minor_seg + off` for `idx` in `range(major_seg)`. -/
def ribbonFaces (minor_seg major_seg section_twist : ℕ) : List ℕ :=
  (List.range minor_seg).flatMap fun offset =>
    (List.range major_seg).map fun idx =>
      idx * minor_seg + (offset * section_twist) % minor_seg

/-- The per-visit writes of `add_uvs_one_ribbon`: `u_prev = u_next;
u_next = u_prev + u_step`, then `loops[0] ↦ (u_prev, 0)`,
`loops[1] ↦ (u_next, 0)`, `loops[3] ↦ (u_prev, 1)`, `loops[2] ↦ (u_next, 1)`. -/
def ribbonLoop (u_step : ℚ) : List ℕ → ℚ → List UVWrite
  | [], _ => []
  | face :: rest, u =>
      ⟨face, (u, 0), (u + u_step, 0), (u + u_step, 1), (u, 1)⟩ ::
        ribbonLoop u_step rest (u + u_step)

/-- All UV writes performed by `add_uvs_one_ribbon(mesh, minor_seg,
major_seg, section_twist)`: `u_step = 1 / (major_seg * minor_seg)` and the
`u` accumulator starts at `0`. -/
def add_uvs_one_ribbon_writes (minor_seg major_seg section_twist : ℕ) : List UVWrite :=
  ribbonLoop (1 / ((major_seg * minor_seg : ℕ) : ℚ))
    (ribbonFaces minor_seg major_seg section_twist) 0

/-- `math.fmod` for the nonnegative arguments used by `add_uvs`
(`fmod(0.5, step)` with `step > 0`), where truncation and floor agree. -/
def qfmod (x y : ℚ) : ℚ := x - y * (⌊x / y⌋ : ℚ)

/-- Inner loop of `add_uvs` (lines 108-119): one row of `minor_seg` faces at
fixed `u_prev, u_next`, threading the `v_prev, v_next` accumulators with the
wrap test `v_next > v_wrap`. -/
def gridInner (u_prev u_next v_step v_wrap : ℚ) : ℕ → ℕ → ℚ → ℚ → List UVWrite
  | 0, _, _, _ => []
  | n + 1, face, v_prev, v_next =>
      ⟨face, (u_prev, v_prev), (u_next, v_prev), (u_next, v_next), (u_prev, v_next)⟩ ::
        gridInner u_prev u_next v_step v_wrap n (face + 1)
          (if v_wrap < v_next then v_next - 1 else v_next)
          ((if v_wrap < v_next then v_next - 1 else v_next) + v_step)

/-- Outer loop of `add_uvs` (lines 105-124): `major_seg` rows, threading the
`u_prev, u_next` accumulators with the wrap test `u_next > u_wrap`; the
polygon counter (`vertex_index`) advances by `minor_seg` per row. -/
def gridOuter (minor_seg : ℕ) (v_init v_step v_wrap u_step u_wrap : ℚ) :
    ℕ → ℕ → ℚ → ℚ → List UVWrite
  | 0, _, _, _ => []
  | n + 1, face, u_prev, u_next =>
      gridInner u_prev u_next v_step v_wrap minor_seg face v_init (v_init + v_step) ++
        gridOuter minor_seg v_init v_step v_wrap u_step u_wrap n (face + minor_seg)
          (if u_wrap < u_next then u_next - 1 else u_next)
          ((if u_wrap < u_next then u_next - 1 else u_next) + u_step)

/-- All UV writes performed by `add_uvs(mesh, minor_seg, major_seg)`:
`u_step = 1/major_seg`, `v_step = 1/minor_seg`, initial offsets
`0.5 + fmod(0.5, step)` per axis, wrap thresholds `1 - step/2`. -/
def add_uvs_writes (minor_seg major_seg : ℕ) : List UVWrite :=
  gridOuter minor_seg
    (1/2 + qfmod (1/2) (1 / (minor_seg : ℚ))) (1 / (minor_seg : ℚ))
    (1 - (1 / (minor_seg : ℚ)) / 2)
    (1 / (major_seg : ℚ)) (1 - (1 / (major_seg : ℚ)) / 2)
    major_seg 0
    (1/2 + qfmod (1/2) (1 / (major_seg : ℚ)))
    ((1/2 + qfmod (1/2) (1 / (major_seg : ℚ))) + 1 / (major_seg : ℚ))

/-- Radius conversion of `AddTorus.mode_update_callback`: exterior and
interior radius from major and minor radius. -/
noncomputable def ext_int_radii (major_radius minor_radius : ℝ) : ℝ × ℝ :=
  (major_radius + minor_radius, major_radius - minor_radius)

/-- Radius conversion at the top of `AddTorus.execute`:
`extra_helper = (abso_major_rad - abso_minor_rad) * 0.5`, then
`major_radius = abso_minor_rad + extra_helper`, `minor_radius = extra_helper`. -/
noncomputable def major_minor_radii (abso_major_rad abso_minor_rad : ℝ) : ℝ × ℝ :=
  (abso_minor_rad + (abso_major_rad - abso_minor_rad) * (1/2),
   (abso_major_rad - abso_minor_rad) * (1/2))

/-! Helper lemmas. -/

theorem wrapIdx_twist_mod (tot m t x : ℕ) :
    wrapIdx tot m (t % m) x = wrapIdx tot m t x := by
  unfold wrapIdx
  split
  · conv_lhs => rw [Nat.add_mod]
    conv_rhs => rw [Nat.add_mod]
    simp
  · rfl

theorem faceQuad_twist_mod (major_seg minor_seg t major_index minor_index : ℕ) :
    faceQuad major_seg minor_seg (t % minor_seg) major_index minor_index =
      faceQuad major_seg minor_seg t major_index minor_index := by
  simp only [faceQuad, wrapIdx_twist_mod]

theorem rangeFlatMap_length {α : Type} (c : ℕ) (f : ℕ → List α) :
    ∀ n, (∀ i, i < n → (f i).length = c) → ((List.range n).flatMap f).length = n * c := by
  intro n
  induction n with
  | zero => intro _; simp
  | succ k ih =>
    intro h
    rw [List.range_succ, List.flatMap_append, List.length_append,
      ih (fun i hi => h i (by omega))]
    have hk : ([k].flatMap f).length = c := by simp [h k (by omega)]
    rw [hk]
    ring

theorem rangeFlatMap_getD {α : Type} (c : ℕ) (f : ℕ → List α) (d : α) :
    ∀ n, (∀ i, i < n → (f i).length = c) → ∀ i j, i < n → j < c →
      ((List.range n).flatMap f).getD (i * c + j) d = (f i).getD j d := by
  intro n
  induction n with
  | zero => intro _ i j hi _; exact absurd hi (Nat.not_lt_zero i)
  | succ k ih =>
    intro h i j hi hj
    rw [List.range_succ, List.flatMap_append]
    rcases Nat.lt_or_ge i k with hik | hik
    · rw [List.getD_append]
      · exact ih (fun a ha => h a (by omega)) i j hik hj
      · rw [rangeFlatMap_length c f k (fun a ha => h a (by omega))]
        calc i * c + j < i * c + c := by omega
          _ = (i + 1) * c := by ring
          _ ≤ k * c := Nat.mul_le_mul_right c hik
    · have hik2 : i = k := by omega
      subst hik2
      rw [List.getD_append_right]
      · rw [rangeFlatMap_length c f i (fun a ha => h a (by omega))]
        have he : i * c + j - i * c = j := by omega
        rw [he]
        simp
      · rw [rangeFlatMap_length c f i (fun a ha => h a (by omega))]
        omega

theorem rangeMap_getD {α : Type} (f : ℕ → α) (d : α) (n k : ℕ) (hk : k < n) :
    ((List.range n).map f).getD k d = f k := by
  rw [List.getD_eq_getElem?_getD, List.getElem?_map, List.getElem?_range hk]
  rfl

theorem vertsFlat_getD (major_rad minor_rad : ℝ) (major_seg minor_seg : ℕ)
    (section_angle : ℝ) (section_twist : ℕ) (i j c : ℕ)
    (hi : i < major_seg) (hj : j < minor_seg) (hc : c < 3) :
    (vertsFlat major_rad minor_rad major_seg minor_seg section_angle section_twist).getD
        (3 * (i * minor_seg + j) + c) 0 =
      [(torusVec major_rad minor_rad major_seg minor_seg section_angle section_twist i j).1,
       (torusVec major_rad minor_rad major_seg minor_seg section_angle section_twist i j).2.1,
       (torusVec major_rad minor_rad major_seg minor_seg section_angle section_twist
          i j).2.2].getD c 0 := by
  unfold vertsFlat
  have h1 : ∀ a, a < major_seg →
      ((List.range minor_seg).flatMap fun minor_index =>
        [(torusVec major_rad minor_rad major_seg minor_seg section_angle section_twist
            a minor_index).1,
         (torusVec major_rad minor_rad major_seg minor_seg section_angle section_twist
            a minor_index).2.1,
         (torusVec major_rad minor_rad major_seg minor_seg section_angle section_twist
            a minor_index).2.2]).length = minor_seg * 3 := by
    intro a _
    refine rangeFlatMap_length 3 _ minor_seg ?_
    intro b hb
    rfl
  have e : 3 * (i * minor_seg + j) + c = i * (minor_seg * 3) + (3 * j + c) := by ring
  rw [e, rangeFlatMap_getD (minor_seg * 3) _ 0 major_seg h1 i (3 * j + c) hi (by omega)]
  have e2 : 3 * j + c = j * 3 + c := by ring
  rw [e2]
  refine rangeFlatMap_getD 3 _ 0 minor_seg ?_ j c hj hc
  intro b hb
  rfl

theorem vertexAt_eq (major_rad minor_rad : ℝ) (major_seg minor_seg : ℕ)
    (section_angle : ℝ) (section_twist : ℕ) (i j : ℕ)
    (hi : i < major_seg) (hj : j < minor_seg) :
    vertexAt major_rad minor_rad major_seg minor_seg section_angle section_twist
        (i * minor_seg + j) =
      torusVec major_rad minor_rad major_seg minor_seg section_angle section_twist i j := by
  have h0 := vertsFlat_getD major_rad minor_rad major_seg minor_seg section_angle
    section_twist i j 0 hi hj (by omega)
  have h1 := vertsFlat_getD major_rad minor_rad major_seg minor_seg section_angle
    section_twist i j 1 hi hj (by omega)
  have h2 := vertsFlat_getD major_rad minor_rad major_seg minor_seg section_angle
    section_twist i j 2 hi hj (by omega)
  rw [Nat.add_zero] at h0
  simp only [List.getD_cons_zero, List.getD_cons_succ] at h0 h1 h2
  unfold vertexAt
  rw [h0, h1, h2]

theorem facesFlat_getD (major_seg minor_seg section_twist i j c : ℕ)
    (hi : i < major_seg) (hj : j < minor_seg) (hc : c < 4) :
    (facesFlat major_seg minor_seg section_twist).getD (4 * (i * minor_seg + j) + c) 0 =
      [(faceQuad major_seg minor_seg section_twist i j).1,
       (faceQuad major_seg minor_seg section_twist i j).2.1,
       (faceQuad major_seg minor_seg section_twist i j).2.2.1,
       (faceQuad major_seg minor_seg section_twist i j).2.2.2].getD c 0 := by
  unfold facesFlat
  have h1 : ∀ a, a < major_seg →
      ((List.range minor_seg).flatMap fun minor_index =>
        [(faceQuad major_seg minor_seg section_twist a minor_index).1,
         (faceQuad major_seg minor_seg section_twist a minor_index).2.1,
         (faceQuad major_seg minor_seg section_twist a minor_index).2.2.1,
         (faceQuad major_seg minor_seg section_twist a minor_index).2.2.2]).length
        = minor_seg * 4 := by
    intro a _
    refine rangeFlatMap_length 4 _ minor_seg ?_
    intro b hb
    rfl
  have e : 4 * (i * minor_seg + j) + c = i * (minor_seg * 4) + (4 * j + c) := by ring
  rw [e, rangeFlatMap_getD (minor_seg * 4) _ 0 major_seg h1 i (4 * j + c) hi (by omega)]
  have e2 : 4 * j + c = j * 4 + c := by ring
  rw [e2]
  refine rangeFlatMap_getD 4 _ 0 minor_seg ?_ j c hj hc
  intro b hb
  rfl

/-! Claim theorems. -/

/-- C9: the face index list produced by the generator depends on the twist
only through its residue modulo `minorSegments`: replacing `sectionTwist`
by `sectionTwist % minorSegments` yields the same face list. -/
theorem faces_depend_on_twist_mod_minor (major_seg minor_seg section_twist : ℕ)
    (hmaj : 3 ≤ major_seg) (hmin : 2 ≤ minor_seg) :
    facesFlat major_seg minor_seg section_twist =
      facesFlat major_seg minor_seg (section_twist % minor_seg) := by
  simp only [facesFlat, faceQuad_twist_mod]

/-- Witness for C9 at `majorSegments = 4`, `minorSegments = 3`,
`sectionTwist = 7`. -/
theorem faces_depend_on_twist_mod_minor_witness :
    facesFlat 4 3 7 = facesFlat 4 3 (7 % 3) :=
  faces_depend_on_twist_mod_minor 4 3 7 (by decide) (by decide)

/-- C10: the exterior/interior-to-major/minor conversion of `execute` and
the major/minor-to-exterior/interior conversion of `mode_update_callback`
are exact inverses of each other, in both orders, over the reals. -/
theorem radius_mode_conversion_inverse :
    (∀ major_radius minor_radius : ℝ,
      major_minor_radii (ext_int_radii major_radius minor_radius).1
          (ext_int_radii major_radius minor_radius).2 = (major_radius, minor_radius)) ∧
    (∀ abso_major_rad abso_minor_rad : ℝ,
      ext_int_radii (major_minor_radii abso_major_rad abso_minor_rad).1
          (major_minor_radii abso_major_rad abso_minor_rad).2 =
        (abso_major_rad, abso_minor_rad)) := by
  constructor <;> intro a b <;>
    simp only [ext_int_radii, major_minor_radii, Prod.mk.injEq] <;>
    constructor <;> ring

/-- C7 counterexample: with `majorSegments = minorSegments = 4`, the third
corner (loop index 2) of the first face receives `(0.75, 0.75)`, not the
`(u, v + step_v) = (0.5, 0.75)` demanded by the claim's corner-to-UV order:
the code writes `(u_next, v_next)` to `loops[2]` and `(u_prev, v_next)` to
`loops[3]`. -/
theorem grid_uv_corner_order_cex :
    applyWrites (add_uvs_writes 4 4) 2 ≠ some (1/2, 3/4) := by
  norm_num [add_uvs_writes, gridOuter, gridInner, qfmod, applyWrites,
    applyWritesFrom, applyW]

/-- C7 (amended): for the grid UV mapper with `majorSegments = minorSegments
= 4`, the first face's four corners receive, in loop order,
`(u, v) = (0.5, 0.5)`, `(u+step_u, v) = (0.75, 0.5)`,
`(u+step_u, v+step_v) = (0.75, 0.75)` and `(u, v+step_v) = (0.5, 0.75)`:
the claim's four corner values with the roles of the third and fourth loop
corners exchanged. -/
theorem grid_uv_first_face_corners :
    applyWrites (add_uvs_writes 4 4) 0 = some (1/2, 1/2) ∧
    applyWrites (add_uvs_writes 4 4) 1 = some (3/4, 1/2) ∧
    applyWrites (add_uvs_writes 4 4) 2 = some (3/4, 3/4) ∧
    applyWrites (add_uvs_writes 4 4) 3 = some (1/2, 3/4) := by
  norm_num [add_uvs_writes, gridOuter, gridInner, qfmod, applyWrites,
    applyWritesFrom, applyW]

/-- C1 counterexample: for `majorSegments = 3`, `minorSegments = 2`,
`sectionTwist = 0` (valid parameters for the claim), the face emitted for
the last vertex — face `5`, occupying flat positions `20..23` — is
`(5, 1, 0, 0)`: its four vertex indices are not pairwise distinct. -/
theorem face_indices_distinct_fails_minor2 :
    ¬ ([(facesFlat 3 2 0).getD 20 0, (facesFlat 3 2 0).getD 21 0,
        (facesFlat 3 2 0).getD 22 0, (facesFlat 3 2 0).getD 23 0].Pairwise (· ≠ ·)) := by
  decide

/-- C4 counterexample: with `majorSegments = 3`, `minorSegments = 4`,
`sectionTwist = 2` the ribbon mapper is selected (`2 % 4 ≠ 0`), yet face `1`
is never visited (`(offset*2) % 4` only takes the values `0` and `2`), so
its loops — loop `4*1` among them — receive no UV coordinates at all. -/
theorem ribbon_uv_skips_faces_not_coprime :
    2 % 4 ≠ 0 ∧ applyWrites (add_uvs_one_ribbon_writes 4 3 2) (4 * 1) = none := by
  exact ⟨by decide, by decide⟩

theorem vertsFlat_length (major_rad minor_rad : ℝ) (major_seg minor_seg : ℕ)
    (section_angle : ℝ) (section_twist : ℕ) :
    (vertsFlat major_rad minor_rad major_seg minor_seg section_angle section_twist).length
      = 3 * (major_seg * minor_seg) := by
  unfold vertsFlat
  have h1 : ∀ a, a < major_seg →
      ((List.range minor_seg).flatMap fun minor_index =>
        [(torusVec major_rad minor_rad major_seg minor_seg section_angle section_twist
            a minor_index).1,
         (torusVec major_rad minor_rad major_seg minor_seg section_angle section_twist
            a minor_index).2.1,
         (torusVec major_rad minor_rad major_seg minor_seg section_angle section_twist
            a minor_index).2.2]).length = minor_seg * 3 := by
    intro a _
    refine rangeFlatMap_length 3 _ minor_seg ?_
    intro b hb
    rfl
  rw [rangeFlatMap_length (minor_seg * 3) _ major_seg h1]
  ring

theorem facesFlat_length (major_seg minor_seg section_twist : ℕ) :
    (facesFlat major_seg minor_seg section_twist).length = 4 * (major_seg * minor_seg) := by
  unfold facesFlat
  have h1 : ∀ a, a < major_seg →
      ((List.range minor_seg).flatMap fun minor_index =>
        [(faceQuad major_seg minor_seg section_twist a minor_index).1,
         (faceQuad major_seg minor_seg section_twist a minor_index).2.1,
         (faceQuad major_seg minor_seg section_twist a minor_index).2.2.1,
         (faceQuad major_seg minor_seg section_twist a minor_index).2.2.2]).length
        = minor_seg * 4 := by
    intro a _
    refine rangeFlatMap_length 4 _ minor_seg ?_
    intro b hb
    rfl
  rw [rangeFlatMap_length (minor_seg * 4) _ major_seg h1]
  ring

/-- C5: for valid parameters the generator produces exactly
`majorSegments * minorSegments` vertices (the flat coordinate buffer holds
`3 * majorSegments * minorSegments` reals) and exactly
`majorSegments * minorSegments` quad faces (the flat face list holds four
indices per face), and the vertex for `(majorIndex, minorIndex)` is stored
at flat position `majorIndex * minorSegments + minorIndex`. -/
theorem torus_counts_and_row_major_layout (major_rad minor_rad : ℝ)
    (major_seg minor_seg : ℕ) (section_angle : ℝ) (section_twist : ℕ)
    (hmaj : 3 ≤ major_seg) (hmin : 2 ≤ minor_seg) :
    (add_torus major_rad minor_rad major_seg minor_seg section_angle section_twist).1.length
        = 3 * (major_seg * minor_seg) ∧
    (add_torus major_rad minor_rad major_seg minor_seg section_angle section_twist).2.length
        = 4 * (major_seg * minor_seg) ∧
    ∀ i j, i < major_seg → j < minor_seg →
      vertexAt major_rad minor_rad major_seg minor_seg section_angle section_twist
          (i * minor_seg + j) =
        torusVec major_rad minor_rad major_seg minor_seg section_angle section_twist i j := by
  refine ⟨vertsFlat_length major_rad minor_rad major_seg minor_seg section_angle section_twist,
    facesFlat_length major_seg minor_seg section_twist, ?_⟩
  intro i j hi hj
  exact vertexAt_eq major_rad minor_rad major_seg minor_seg section_angle section_twist
    i j hi hj

/-- Witness for C5 at `majorRadius = 1`, `minorRadius = 1/4`,
`majorSegments = minorSegments = 4`, `sectionAngle = 0`, `sectionTwist = 0`. -/
theorem torus_counts_and_row_major_layout_witness :
    (add_torus 1 (1/4) 4 4 0 0).1.length = 3 * (4 * 4) ∧
    (add_torus 1 (1/4) 4 4 0 0).2.length = 4 * (4 * 4) ∧
    ∀ i j, i < 4 → j < 4 →
      vertexAt 1 (1/4) 4 4 0 0 (i * 4 + j) = torusVec 1 (1/4) 4 4 0 0 i j :=
  torus_counts_and_row_major_layout 1 (1/4) 4 4 0 0 (by decide) (by decide)

/-- C2: the vertex at major ring index `i` and minor index `j` — stored at
flat position `i * minorSegments + j`, i.e. in row-major order — equals the
rotation about Z by `2π·i/majorSegments` applied to
`(majorRadius + minorRadius·cos θ, 0, minorRadius·sin θ)` with
`θ = 2π·j/minorSegments + sectionAngle + i·twistStepAngle` and
`twistStepAngle = (2π / minorSegments / majorSegments) · sectionTwist`. -/
theorem torus_vertex_placement (major_rad minor_rad : ℝ) (major_seg minor_seg : ℕ)
    (section_angle : ℝ) (section_twist : ℕ) (hmaj : 3 ≤ major_seg) (hmin : 2 ≤ minor_seg)
    (i j : ℕ) (hi : i < major_seg) (hj : j < minor_seg) :
    vertexAt major_rad minor_rad major_seg minor_seg section_angle section_twist
        (i * minor_seg + j) =
      rotZ (2 * Real.pi * i / major_seg)
        (major_rad + minor_rad * Real.cos (2 * Real.pi * j / minor_seg + section_angle +
            i * (2 * Real.pi / minor_seg / major_seg * section_twist)),
         0,
         minor_rad * Real.sin (2 * Real.pi * j / minor_seg + section_angle +
            i * (2 * Real.pi / minor_seg / major_seg * section_twist))) := by
  rw [vertexAt_eq major_rad minor_rad major_seg minor_seg section_angle section_twist
    i j hi hj]
  unfold torusVec twist_step_angle
  have hang : ((i : ℝ) / major_seg) * (2 * Real.pi) = 2 * Real.pi * i / major_seg := by
    ring
  rw [hang]
  unfold rotZ
  simp only [Prod.mk.injEq]
  refine ⟨by ring, by ring, by ring⟩

/-- Witness for C2 at `majorRadius = 1`, `minorRadius = 1/4`,
`majorSegments = minorSegments = 4`, `sectionAngle = 0`, `sectionTwist = 0`,
ring `i = 1`, minor index `j = 2`. -/
theorem torus_vertex_placement_witness :
    vertexAt 1 (1/4) 4 4 0 0 (1 * 4 + 2) =
      rotZ (2 * Real.pi * ((1:ℕ):ℝ) / ((4:ℕ):ℝ))
        (1 + (1/4) * Real.cos (2 * Real.pi * ((2:ℕ):ℝ) / ((4:ℕ):ℝ) + 0 +
            ((1:ℕ):ℝ) * (2 * Real.pi / ((4:ℕ):ℝ) / ((4:ℕ):ℝ) * ((0:ℕ):ℝ))),
         0,
         (1/4) * Real.sin (2 * Real.pi * ((2:ℕ):ℝ) / ((4:ℕ):ℝ) + 0 +
            ((1:ℕ):ℝ) * (2 * Real.pi / ((4:ℕ):ℝ) / ((4:ℕ):ℝ) * ((0:ℕ):ℝ)))) :=
  torus_vertex_placement 1 (1/4) 4 4 0 0 (by decide) (by decide) 1 2 (by decide) (by decide)

theorem dist3_rotZ_cross (R r phi theta : ℝ) (hr : 0 ≤ r) :
    dist3 (rotZ phi (R + Real.cos theta * r, 0, Real.sin theta * r))
        (rotZ phi (R, 0, 0)) = r := by
  have hphi := Real.sin_sq_add_cos_sq phi
  have htheta := Real.sin_sq_add_cos_sq theta
  simp only [dist3, rotZ]
  have key : ((R + Real.cos theta * r) * Real.cos phi - 0 * Real.sin phi -
        (R * Real.cos phi - 0 * Real.sin phi)) ^ 2 +
      ((R + Real.cos theta * r) * Real.sin phi + 0 * Real.cos phi -
        (R * Real.sin phi + 0 * Real.cos phi)) ^ 2 +
      (Real.sin theta * r - 0) ^ 2 = r ^ 2 := by
    linear_combination (r ^ 2 * Real.cos theta ^ 2) * hphi + r ^ 2 * htheta
  rw [key]
  exact Real.sqrt_sq hr

/-- C6: with `sectionTwist = 0`, every vertex produced by the generator lies
at Euclidean distance exactly `minorRadius` from the center of its major
ring (the point `(majorRadius, 0, 0)` rotated about Z by the ring's angle),
over exact real arithmetic. -/
theorem vertex_distance_to_ring_center (major_rad minor_rad : ℝ)
    (major_seg minor_seg : ℕ) (section_angle : ℝ) (i j : ℕ)
    (hmaj : 3 ≤ major_seg) (hmin : 2 ≤ minor_seg) (hrad : 0 ≤ minor_rad)
    (hi : i < major_seg) (hj : j < minor_seg) :
    dist3 (vertexAt major_rad minor_rad major_seg minor_seg section_angle 0
        (i * minor_seg + j)) (ringCenter major_rad major_seg i) = minor_rad := by
  rw [vertexAt_eq major_rad minor_rad major_seg minor_seg section_angle 0 i j hi hj]
  unfold torusVec ringCenter
  exact dist3_rotZ_cross major_rad minor_rad _ _ hrad

/-- Witness for C6 at `majorRadius = 1`, `minorRadius = 1/4`,
`majorSegments = minorSegments = 4`, `sectionAngle = 0`, ring `i = 1`,
minor index `j = 2`. -/
theorem vertex_distance_to_ring_center_witness :
    dist3 (vertexAt 1 (1/4) 4 4 0 0 (1 * 4 + 2)) (ringCenter 1 4 1) = 1/4 :=
  vertex_distance_to_ring_center 1 (1/4) 4 4 0 1 2 (by decide) (by decide)
    (by norm_num) (by decide) (by decide)

theorem wrapIdx_lt (tot m t x : ℕ) (hm : 0 < m) (hmt : m ≤ tot) :
    wrapIdx tot m t x < tot := by
  unfold wrapIdx
  split
  · exact lt_of_lt_of_le (Nat.mod_lt _ hm) hmt
  · omega

theorem mod_ne_of_sub_lt (m a b : ℕ) (hab : a < b) (hd : b - a < m) : a % m ≠ b % m := by
  intro h
  have hmod : a ≡ b [MOD m] := h
  have hdvd : m ∣ b - a := (Nat.modEq_iff_dvd' (by omega)).mp hmod
  have hle := Nat.le_of_dvd (by omega) hdvd
  omega

theorem faceQuad_interior (major_seg minor_seg t i j : ℕ)
    (hi : i + 1 < major_seg) (hj : j + 1 < minor_seg) :
    faceQuad major_seg minor_seg t i j =
      (i * minor_seg + j, i * minor_seg + j + minor_seg,
       i * minor_seg + j + minor_seg + 1, i * minor_seg + j + 1) := by
  have hub : i * minor_seg + 2 * minor_seg ≤ major_seg * minor_seg := by
    calc i * minor_seg + 2 * minor_seg = (i + 2) * minor_seg := by ring
      _ ≤ major_seg * minor_seg := Nat.mul_le_mul_right minor_seg (by omega)
  simp only [faceQuad, wrapIdx]
  have hB : ¬ (2 < minor_seg ∧ j + 1 = minor_seg) := by omega
  rw [if_neg hB, if_neg hB]
  rw [if_neg (show ¬ major_seg * minor_seg ≤ i * minor_seg + j + minor_seg by omega)]
  rw [if_neg (show ¬ major_seg * minor_seg ≤ i * minor_seg + j + minor_seg + 1 by omega)]
  rw [if_neg (show ¬ major_seg * minor_seg ≤ i * minor_seg + j + 1 by omega)]

theorem faceQuad_interior_lastminor (major_seg minor_seg t i j : ℕ)
    (hi : i + 1 < major_seg) (hm : 2 < minor_seg) (hj : j + 1 = minor_seg) :
    faceQuad major_seg minor_seg t i j =
      (i * minor_seg + j, i * minor_seg + j + minor_seg,
       i * minor_seg + minor_seg, i * minor_seg) := by
  have hub : i * minor_seg + 2 * minor_seg ≤ major_seg * minor_seg := by
    calc i * minor_seg + 2 * minor_seg = (i + 2) * minor_seg := by ring
      _ ≤ major_seg * minor_seg := Nat.mul_le_mul_right minor_seg (by omega)
  simp only [faceQuad, wrapIdx]
  have hB : 2 < minor_seg ∧ j + 1 = minor_seg := ⟨hm, hj⟩
  rw [if_pos hB, if_pos hB]
  rw [if_neg (show ¬ major_seg * minor_seg ≤ i * minor_seg + j + minor_seg by omega)]
  rw [if_neg (show ¬ major_seg * minor_seg ≤ i * minor_seg + minor_seg by omega)]
  rw [if_neg (show ¬ major_seg * minor_seg ≤ i * minor_seg by omega)]

theorem faceQuad_seam (major_seg minor_seg t j : ℕ) (hmaj : 1 ≤ major_seg)
    (hj : j + 1 < minor_seg) :
    faceQuad major_seg minor_seg t (major_seg - 1) j =
      ((major_seg - 1) * minor_seg + j, (j + t) % minor_seg,
       (j + 1 + t) % minor_seg, (major_seg - 1) * minor_seg + j + 1) := by
  have hq : major_seg * minor_seg = (major_seg - 1) * minor_seg + minor_seg := by
    rw [Nat.sub_one_mul]
    have h1 : minor_seg ≤ major_seg * minor_seg :=
      Nat.le_mul_of_pos_left minor_seg (by omega)
    omega
  simp only [faceQuad, wrapIdx]
  have hB : ¬ (2 < minor_seg ∧ j + 1 = minor_seg) := by omega
  rw [if_neg hB, if_neg hB]
  rw [if_pos (show major_seg * minor_seg ≤ (major_seg - 1) * minor_seg + j + minor_seg
    by omega)]
  rw [if_pos (show major_seg * minor_seg ≤ (major_seg - 1) * minor_seg + j + minor_seg + 1
    by omega)]
  rw [if_neg (show ¬ major_seg * minor_seg ≤ (major_seg - 1) * minor_seg + j + 1 by omega)]
  rw [show (major_seg - 1) * minor_seg + j + minor_seg - major_seg * minor_seg + t = j + t
    from by omega]
  rw [show (major_seg - 1) * minor_seg + j + minor_seg + 1 - major_seg * minor_seg + t
    = j + 1 + t from by omega]

theorem faceQuad_seam_lastminor (major_seg minor_seg t j : ℕ) (hmaj : 1 ≤ major_seg)
    (hm : 2 < minor_seg) (hj : j + 1 = minor_seg) :
    faceQuad major_seg minor_seg t (major_seg - 1) j =
      ((major_seg - 1) * minor_seg + j, (j + t) % minor_seg, t % minor_seg,
       (major_seg - 1) * minor_seg) := by
  have hq : major_seg * minor_seg = (major_seg - 1) * minor_seg + minor_seg := by
    rw [Nat.sub_one_mul]
    have h1 : minor_seg ≤ major_seg * minor_seg :=
      Nat.le_mul_of_pos_left minor_seg (by omega)
    omega
  simp only [faceQuad, wrapIdx]
  have hB : 2 < minor_seg ∧ j + 1 = minor_seg := ⟨hm, hj⟩
  rw [if_pos hB, if_pos hB]
  rw [if_pos (show major_seg * minor_seg ≤ (major_seg - 1) * minor_seg + j + minor_seg
    by omega)]
  rw [if_pos (show major_seg * minor_seg ≤ (major_seg - 1) * minor_seg + minor_seg
    by omega)]
  rw [if_neg (show ¬ major_seg * minor_seg ≤ (major_seg - 1) * minor_seg by omega)]
  rw [show (major_seg - 1) * minor_seg + j + minor_seg - major_seg * minor_seg + t = j + t
    from by omega]
  rw [show (major_seg - 1) * minor_seg + minor_seg - major_seg * minor_seg + t = t
    from by omega]

theorem faceQuad_lt (major_seg minor_seg t i j : ℕ)
    (hmin : 1 ≤ minor_seg) (hi : i < major_seg) (hj : j < minor_seg) :
    (faceQuad major_seg minor_seg t i j).1 < major_seg * minor_seg ∧
    (faceQuad major_seg minor_seg t i j).2.1 < major_seg * minor_seg ∧
    (faceQuad major_seg minor_seg t i j).2.2.1 < major_seg * minor_seg ∧
    (faceQuad major_seg minor_seg t i j).2.2.2 < major_seg * minor_seg := by
  have hmt : minor_seg ≤ major_seg * minor_seg :=
    Nat.le_mul_of_pos_left minor_seg (by omega)
  have h1 : i * minor_seg + j < major_seg * minor_seg := by
    have h2 := Nat.mul_le_mul_right minor_seg (show i + 1 ≤ major_seg from hi)
    have he : (i + 1) * minor_seg = i * minor_seg + minor_seg := by ring
    omega
  exact ⟨h1, wrapIdx_lt _ _ _ _ (by omega) hmt, wrapIdx_lt _ _ _ _ (by omega) hmt,
    wrapIdx_lt _ _ _ _ (by omega) hmt⟩

theorem faceQuad_distinct (major_seg minor_seg t i j : ℕ)
    (hmaj : 3 ≤ major_seg) (hmin : 3 ≤ minor_seg) (hi : i < major_seg) (hj : j < minor_seg) :
    (faceQuad major_seg minor_seg t i j).1 ≠ (faceQuad major_seg minor_seg t i j).2.1 ∧
    (faceQuad major_seg minor_seg t i j).1 ≠ (faceQuad major_seg minor_seg t i j).2.2.1 ∧
    (faceQuad major_seg minor_seg t i j).1 ≠ (faceQuad major_seg minor_seg t i j).2.2.2 ∧
    (faceQuad major_seg minor_seg t i j).2.1 ≠ (faceQuad major_seg minor_seg t i j).2.2.1 ∧
    (faceQuad major_seg minor_seg t i j).2.1 ≠ (faceQuad major_seg minor_seg t i j).2.2.2 ∧
    (faceQuad major_seg minor_seg t i j).2.2.1 ≠ (faceQuad major_seg minor_seg t i j).2.2.2 := by
  rcases Nat.lt_or_ge (i + 1) major_seg with hilt | hige
  · rcases Nat.lt_or_ge (j + 1) minor_seg with hjlt | hjge
    · rw [faceQuad_interior major_seg minor_seg t i j hilt hjlt]
      dsimp only
      omega
    · have hj1 : j + 1 = minor_seg := by omega
      rw [faceQuad_interior_lastminor major_seg minor_seg t i j hilt (by omega) hj1]
      dsimp only
      omega
  · have hieq : i = major_seg - 1 := by omega
    subst hieq
    have hp : 2 * minor_seg ≤ (major_seg - 1) * minor_seg :=
      Nat.mul_le_mul_right minor_seg (by omega)
    rcases Nat.lt_or_ge (j + 1) minor_seg with hjlt | hjge
    · rw [faceQuad_seam major_seg minor_seg t j (by omega) hjlt]
      dsimp only
      have hb1 : (j + t) % minor_seg < minor_seg := Nat.mod_lt _ (by omega)
      have hb2 : (j + 1 + t) % minor_seg < minor_seg := Nat.mod_lt _ (by omega)
      have hne := mod_ne_of_sub_lt minor_seg (j + t) (j + 1 + t) (by omega) (by omega)
      omega
    · have hj1 : j + 1 = minor_seg := by omega
      rw [faceQuad_seam_lastminor major_seg minor_seg t j (by omega) (by omega) hj1]
      dsimp only
      have hb1 : (j + t) % minor_seg < minor_seg := Nat.mod_lt _ (by omega)
      have hb2 : t % minor_seg < minor_seg := Nat.mod_lt _ (by omega)
      have hne := mod_ne_of_sub_lt minor_seg t (j + t) (by omega) (by omega)
      omega

/-- C1 (amended): every face emitted by the generator has its four vertex
indices in range `[0, majorSegments*minorSegments)` for all parameters with
`majorSegments ≥ 3` and `minorSegments ≥ 2`; the four indices are moreover
pairwise distinct whenever `minorSegments ≥ 3`.  (For `minorSegments = 2`
the seam face of the last vertex repeats an index, see the
counterexample.) -/
theorem face_indices_range_and_distinct (major_seg minor_seg section_twist k : ℕ)
    (hmaj : 3 ≤ major_seg) (hmin : 2 ≤ minor_seg) (hk : k < major_seg * minor_seg) :
    (∀ c, c < 4 → (facesFlat major_seg minor_seg section_twist).getD (4 * k + c) 0
        < major_seg * minor_seg) ∧
    (3 ≤ minor_seg →
      [(facesFlat major_seg minor_seg section_twist).getD (4 * k) 0,
       (facesFlat major_seg minor_seg section_twist).getD (4 * k + 1) 0,
       (facesFlat major_seg minor_seg section_twist).getD (4 * k + 2) 0,
       (facesFlat major_seg minor_seg section_twist).getD (4 * k + 3) 0].Pairwise
        (· ≠ ·)) := by
  have hm0 : 0 < minor_seg := by omega
  have hi : k / minor_seg < major_seg := by
    rw [Nat.div_lt_iff_lt_mul hm0]
    exact hk
  have hj : k % minor_seg < minor_seg := Nat.mod_lt _ hm0
  have hk4 : k = k / minor_seg * minor_seg + k % minor_seg := by
    have h := Nat.div_add_mod k minor_seg
    rw [Nat.mul_comm] at h
    exact h.symm
  have h0 := facesFlat_getD major_seg minor_seg section_twist (k / minor_seg)
    (k % minor_seg) 0 hi hj (by omega)
  have h1 := facesFlat_getD major_seg minor_seg section_twist (k / minor_seg)
    (k % minor_seg) 1 hi hj (by omega)
  have h2 := facesFlat_getD major_seg minor_seg section_twist (k / minor_seg)
    (k % minor_seg) 2 hi hj (by omega)
  have h3 := facesFlat_getD major_seg minor_seg section_twist (k / minor_seg)
    (k % minor_seg) 3 hi hj (by omega)
  rw [← hk4] at h0 h1 h2 h3
  rw [Nat.add_zero] at h0
  simp only [List.getD_cons_zero, List.getD_cons_succ] at h0 h1 h2 h3
  have hlt := faceQuad_lt major_seg minor_seg section_twist (k / minor_seg)
    (k % minor_seg) (by omega) hi hj
  constructor
  · intro c hc
    interval_cases c
    · rw [Nat.add_zero, h0]; exact hlt.1
    · rw [h1]; exact hlt.2.1
    · rw [h2]; exact hlt.2.2.1
    · rw [h3]; exact hlt.2.2.2
  · intro hmin3
    obtain ⟨d1, d2, d3, d4, d5, d6⟩ := faceQuad_distinct major_seg minor_seg section_twist
      (k / minor_seg) (k % minor_seg) hmaj hmin3 hi hj
    rw [h0, h1, h2, h3]
    refine List.Pairwise.cons ?_ (List.Pairwise.cons ?_ (List.Pairwise.cons ?_
      (List.Pairwise.cons (fun x hx => absurd hx (List.not_mem_nil x))
        List.Pairwise.nil)))
    · intro x hx
      rcases List.mem_cons.mp hx with h | hx2
      · exact h ▸ d1
      rcases List.mem_cons.mp hx2 with h | hx3
      · exact h ▸ d2
      rcases List.mem_cons.mp hx3 with h | hx4
      · exact h ▸ d3
      · exact absurd hx4 (List.not_mem_nil x)
    · intro x hx
      rcases List.mem_cons.mp hx with h | hx2
      · exact h ▸ d4
      rcases List.mem_cons.mp hx2 with h | hx3
      · exact h ▸ d5
      · exact absurd hx3 (List.not_mem_nil x)
    · intro x hx
      rcases List.mem_cons.mp hx with h | hx2
      · exact h ▸ d6
      · exact absurd hx2 (List.not_mem_nil x)

/-- Witness for C1 (amended) at `majorSegments = minorSegments = 3`,
`sectionTwist = 1`, face `k = 0`. -/
theorem face_indices_range_and_distinct_witness :
    (∀ c, c < 4 → (facesFlat 3 3 1).getD (4 * 0 + c) 0 < 3 * 3) ∧
    (3 ≤ 3 →
      [(facesFlat 3 3 1).getD (4 * 0) 0, (facesFlat 3 3 1).getD (4 * 0 + 1) 0,
       (facesFlat 3 3 1).getD (4 * 0 + 2) 0, (facesFlat 3 3 1).getD (4 * 0 + 3) 0].Pairwise
        (· ≠ ·)) :=
  face_indices_range_and_distinct 3 3 1 0 (by decide) (by decide) (by decide)

/-- C3: the seam wrap rule of the face construction.  A computed neighbour
index at or beyond `tot = majorSegments*minorSegments` is replaced by
`(index - tot + sectionTwist) % minorSegments`, and indices below `tot` are
kept unchanged.  With `sectionTwist = 0` the wrap is the ordinary untwisted
one: the replaced index is exactly `index - tot`, the same minor position in
ring 0 (in particular the seam face of last-ring vertex `j` reconnects with
`i3 = j` and `i4 = j + 1`).  For `majorSegments = 3`, `minorSegments = 4`,
`sectionTwist = 1`, the wrapped minor indices at the seam are offset by
exactly 1 modulo 4 relative to the `sectionTwist = 0` case. -/
theorem seam_wrap_rule (major_seg minor_seg section_twist : ℕ)
    (hmaj : 3 ≤ major_seg) (hmin : 2 ≤ minor_seg) :
    (∀ x, major_seg * minor_seg ≤ x →
      wrapIdx (major_seg * minor_seg) minor_seg section_twist x =
        (x - major_seg * minor_seg + section_twist) % minor_seg) ∧
    (∀ x, x < major_seg * minor_seg →
      wrapIdx (major_seg * minor_seg) minor_seg section_twist x = x) ∧
    (∀ x, major_seg * minor_seg ≤ x → x < major_seg * minor_seg + minor_seg →
      wrapIdx (major_seg * minor_seg) minor_seg 0 x = x - major_seg * minor_seg) ∧
    (∀ j, j + 1 < minor_seg →
      (faceQuad major_seg minor_seg 0 (major_seg - 1) j).2.1 = j ∧
      (faceQuad major_seg minor_seg 0 (major_seg - 1) j).2.2.1 = j + 1) ∧
    (∀ j, j < 4 →
      (faceQuad 3 4 1 2 j).2.1 = ((faceQuad 3 4 0 2 j).2.1 + 1) % 4 ∧
      (faceQuad 3 4 1 2 j).2.2.1 = ((faceQuad 3 4 0 2 j).2.2.1 + 1) % 4) := by
  refine ⟨?_, ?_, ?_, ?_, ?_⟩
  · intro x hx
    unfold wrapIdx
    rw [if_pos hx]
  · intro x hx
    unfold wrapIdx
    rw [if_neg (by omega)]
  · intro x hx1 hx2
    unfold wrapIdx
    rw [if_pos hx1, Nat.add_zero]
    exact Nat.mod_eq_of_lt (by omega)
  · intro j hj
    rw [faceQuad_seam major_seg minor_seg 0 j (by omega) hj]
    dsimp only
    rw [Nat.add_zero, Nat.add_zero]
    exact ⟨Nat.mod_eq_of_lt (by omega), Nat.mod_eq_of_lt (by omega)⟩
  · decide

/-- Witness for C3 at `majorSegments = 3`, `minorSegments = 4`,
`sectionTwist = 1`. -/
theorem seam_wrap_rule_witness :
    (∀ x, 3 * 4 ≤ x → wrapIdx (3 * 4) 4 1 x = (x - 3 * 4 + 1) % 4) ∧
    (∀ x, x < 3 * 4 → wrapIdx (3 * 4) 4 1 x = x) ∧
    (∀ x, 3 * 4 ≤ x → x < 3 * 4 + 4 → wrapIdx (3 * 4) 4 0 x = x - 3 * 4) ∧
    (∀ j, j + 1 < 4 →
      (faceQuad 3 4 0 (3 - 1) j).2.1 = j ∧ (faceQuad 3 4 0 (3 - 1) j).2.2.1 = j + 1) ∧
    (∀ j, j < 4 →
      (faceQuad 3 4 1 2 j).2.1 = ((faceQuad 3 4 0 2 j).2.1 + 1) % 4 ∧
      (faceQuad 3 4 1 2 j).2.2.1 = ((faceQuad 3 4 0 2 j).2.2.1 + 1) % 4) :=
  seam_wrap_rule 3 4 1 (by decide) (by decide)

/-- C8: face `k` occupies flat face-list positions `4k .. 4k+3` (the mesh is
built with loop-start `4*k` and loop-count `4` for every face — quads only),
and its content is the ordered tuple `(i1, i3, i4, i2)`: the corner vertex
`k` itself, the (wrapped) next-major-ring neighbour `k + minorSegments`, the
(wrapped) diagonal, and the (wrapped) next-minor neighbour, in that
winding. -/
theorem face_winding_and_loop_layout (major_seg minor_seg section_twist k : ℕ)
    (hmaj : 3 ≤ major_seg) (hmin : 2 ≤ minor_seg) (hk : k < major_seg * minor_seg) :
    ((facesFlat major_seg minor_seg section_twist).getD (4 * k) 0 = k ∧
     (facesFlat major_seg minor_seg section_twist).getD (4 * k + 1) 0 =
       wrapIdx (major_seg * minor_seg) minor_seg section_twist (k + minor_seg) ∧
     (facesFlat major_seg minor_seg section_twist).getD (4 * k + 2) 0 =
       wrapIdx (major_seg * minor_seg) minor_seg section_twist
         (if 2 < minor_seg ∧ k % minor_seg + 1 = minor_seg
          then k / minor_seg * minor_seg + minor_seg else k + minor_seg + 1) ∧
     (facesFlat major_seg minor_seg section_twist).getD (4 * k + 3) 0 =
       wrapIdx (major_seg * minor_seg) minor_seg section_twist
         (if 2 < minor_seg ∧ k % minor_seg + 1 = minor_seg
          then k / minor_seg * minor_seg else k + 1)) ∧
    (facesFlat major_seg minor_seg section_twist).length = 4 * (major_seg * minor_seg) ∧
    (loopStarts (4 * (major_seg * minor_seg))).length = major_seg * minor_seg ∧
    (loopStarts (4 * (major_seg * minor_seg))).getD k 0 = 4 * k ∧
    (loopTotals (major_seg * minor_seg)).getD k 0 = 4 ∧
    (∀ x, x ∈ loopTotals (major_seg * minor_seg) → x = 4) := by
  have hm0 : 0 < minor_seg := by omega
  have hi : k / minor_seg < major_seg := by
    rw [Nat.div_lt_iff_lt_mul hm0]
    exact hk
  have hj : k % minor_seg < minor_seg := Nat.mod_lt _ hm0
  have hk4 : k = k / minor_seg * minor_seg + k % minor_seg := by
    have h := Nat.div_add_mod k minor_seg
    rw [Nat.mul_comm] at h
    exact h.symm
  have h0 := facesFlat_getD major_seg minor_seg section_twist (k / minor_seg)
    (k % minor_seg) 0 hi hj (by omega)
  have h1 := facesFlat_getD major_seg minor_seg section_twist (k / minor_seg)
    (k % minor_seg) 1 hi hj (by omega)
  have h2 := facesFlat_getD major_seg minor_seg section_twist (k / minor_seg)
    (k % minor_seg) 2 hi hj (by omega)
  have h3 := facesFlat_getD major_seg minor_seg section_twist (k / minor_seg)
    (k % minor_seg) 3 hi hj (by omega)
  rw [← hk4] at h0 h1 h2 h3
  rw [Nat.add_zero] at h0
  simp only [List.getD_cons_zero, List.getD_cons_succ] at h0 h1 h2 h3
  refine ⟨⟨?_, ?_, ?_, ?_⟩, facesFlat_length major_seg minor_seg section_twist, ?_, ?_, ?_, ?_⟩
  · rw [h0]
    simp only [faceQuad]
    rw [← hk4]
  · rw [h1]
    simp only [faceQuad]
    rw [← hk4]
  · rw [h2]
    simp only [faceQuad]
    rw [← hk4]
  · rw [h3]
    simp only [faceQuad]
    rw [← hk4]
  · unfold loopStarts
    rw [List.length_map, List.length_range]
    omega
  · unfold loopStarts
    have hn : k < (4 * (major_seg * minor_seg) + 3) / 4 := by omega
    exact rangeMap_getD _ 0 _ k hn
  · unfold loopTotals
    rw [List.getD_eq_getElem?_getD, List.getElem?_replicate, if_pos hk]
    rfl
  · intro x hx
    exact List.eq_of_mem_replicate hx

/-- Witness for C8 at `majorSegments = minorSegments = 3`, `sectionTwist = 0`,
face `k = 4`. -/
theorem face_winding_and_loop_layout_witness :
    ((facesFlat 3 3 0).getD (4 * 4) 0 = 4 ∧
     (facesFlat 3 3 0).getD (4 * 4 + 1) 0 = wrapIdx (3 * 3) 3 0 (4 + 3) ∧
     (facesFlat 3 3 0).getD (4 * 4 + 2) 0 =
       wrapIdx (3 * 3) 3 0
         (if 2 < 3 ∧ 4 % 3 + 1 = 3 then 4 / 3 * 3 + 3 else 4 + 3 + 1) ∧
     (facesFlat 3 3 0).getD (4 * 4 + 3) 0 =
       wrapIdx (3 * 3) 3 0 (if 2 < 3 ∧ 4 % 3 + 1 = 3 then 4 / 3 * 3 else 4 + 1)) ∧
    (facesFlat 3 3 0).length = 4 * (3 * 3) ∧
    (loopStarts (4 * (3 * 3))).length = 3 * 3 ∧
    (loopStarts (4 * (3 * 3))).getD 4 0 = 4 * 4 ∧
    (loopTotals (3 * 3)).getD 4 0 = 4 ∧
    (∀ x, x ∈ loopTotals (3 * 3) → x = 4) :=
  face_winding_and_loop_layout 3 3 0 4 (by decide) (by decide) (by decide)

theorem applyWritesFrom_not_touched (g : ℕ → Option (ℚ × ℚ)) (ws : List UVWrite)
    (f c : ℕ) (hc : c < 4) (h : ∀ w, w ∈ ws → w.face ≠ f) :
    applyWritesFrom g ws (4 * f + c) = g (4 * f + c) := by
  induction ws generalizing g with
  | nil => rfl
  | cons w rest ih =>
    have hw : w.face ≠ f := h w (List.mem_cons_self w rest)
    have hrest : ∀ w2, w2 ∈ rest → w2.face ≠ f :=
      fun w2 h2 => h w2 (List.mem_cons_of_mem w h2)
    show applyWritesFrom (applyW g w) rest (4 * f + c) = g (4 * f + c)
    rw [ih (applyW g w) hrest]
    unfold applyW
    rw [if_neg (by omega), if_neg (by omega), if_neg (by omega), if_neg (by omega)]

theorem applyW_self (g : ℕ → Option (ℚ × ℚ)) (w : UVWrite) :
    applyW g w (4 * w.face) = some w.uv0 ∧
    applyW g w (4 * w.face + 1) = some w.uv1 ∧
    applyW g w (4 * w.face + 2) = some w.uv2 ∧
    applyW g w (4 * w.face + 3) = some w.uv3 := by
  refine ⟨?_, ?_, ?_, ?_⟩
  · unfold applyW
    rw [if_pos rfl]
  · unfold applyW
    rw [if_neg (by omega), if_pos rfl]
  · unfold applyW
    rw [if_neg (by omega), if_neg (by omega), if_pos rfl]
  · unfold applyW
    rw [if_neg (by omega), if_neg (by omega), if_neg (by omega), if_pos rfl]

theorem applyWrites_last (ws : List UVWrite) (k : ℕ) (w : UVWrite)
    (hw : ws.get? k = some w)
    (hlast : ∀ k2 w2, k < k2 → ws.get? k2 = some w2 → w2.face ≠ w.face) :
    applyWrites ws (4 * w.face) = some w.uv0 ∧
    applyWrites ws (4 * w.face + 1) = some w.uv1 ∧
    applyWrites ws (4 * w.face + 2) = some w.uv2 ∧
    applyWrites ws (4 * w.face + 3) = some w.uv3 := by
  have hsplit : ws = ws.take (k + 1) ++ ws.drop (k + 1) :=
    (List.take_append_drop (k + 1) ws).symm
  have htk : ws.take (k + 1) = ws.take k ++ [w] := by
    rw [List.take_succ]
    rw [List.get?_eq_getElem?] at hw
    rw [hw]
    rfl
  have hdrop : ∀ w2, w2 ∈ ws.drop (k + 1) → w2.face ≠ w.face := by
    intro w2 h2
    obtain ⟨n, hn⟩ := List.mem_iff_get?.mp h2
    rw [List.get?_drop] at hn
    exact hlast (k + 1 + n) w2 (by omega) hn
  have key : ∀ c, c < 4 → applyWrites ws (4 * w.face + c) =
      applyW (applyWritesFrom (fun _ => none) (ws.take k)) w (4 * w.face + c) := by
    intro c hc
    conv_lhs => rw [applyWrites, hsplit]
    rw [applyWritesFrom, List.foldl_append]
    show applyWritesFrom (applyWritesFrom (fun _ => none) (ws.take (k + 1)))
        (ws.drop (k + 1)) (4 * w.face + c) = _
    rw [applyWritesFrom_not_touched _ _ _ c hc hdrop]
    rw [htk]
    rw [applyWritesFrom, List.foldl_append]
    rfl
  have h0 := key 0 (by omega)
  rw [Nat.add_zero] at h0
  obtain ⟨a0, a1, a2, a3⟩ := applyW_self (applyWritesFrom (fun _ => none) (ws.take k)) w
  exact ⟨h0.trans a0, (key 1 (by omega)).trans a1, (key 2 (by omega)).trans a2,
    (key 3 (by omega)).trans a3⟩

theorem ribbonLoop_length (u_step : ℚ) :
    ∀ (l : List ℕ) (u : ℚ), (ribbonLoop u_step l u).length = l.length := by
  intro l
  induction l with
  | nil => intro u; rfl
  | cons a rest ih =>
    intro u
    simp only [ribbonLoop, List.length_cons, ih]

theorem ribbonLoop_get? (u_step : ℚ) :
    ∀ (l : List ℕ) (u : ℚ) (k : ℕ), k < l.length →
      (ribbonLoop u_step l u).get? k =
        some ⟨l.getD k 0, (u + (k : ℚ) * u_step, 0), (u + ((k : ℚ) + 1) * u_step, 0),
              (u + ((k : ℚ) + 1) * u_step, 1), (u + (k : ℚ) * u_step, 1)⟩ := by
  intro l
  induction l with
  | nil =>
    intro u k hk
    simp at hk
  | cons a rest ih =>
    intro u k hk
    cases k with
    | zero =>
      simp only [ribbonLoop, List.get?, List.getD_cons_zero]
      norm_num
    | succ k2 =>
      show (ribbonLoop u_step rest (u + u_step)).get? k2 = _
      rw [ih (u + u_step) k2 (by simpa using hk)]
      have h1 : u + u_step + (k2 : ℚ) * u_step = u + (((k2 : ℕ) + 1 : ℕ) : ℚ) * u_step := by
        push_cast
        ring
      have h2 : u + u_step + ((k2 : ℚ) + 1) * u_step
          = u + ((((k2 : ℕ) + 1 : ℕ) : ℚ) + 1) * u_step := by
        push_cast
        ring
      rw [h1, h2, List.getD_cons_succ]

theorem ribbonFaces_length (minor_seg major_seg section_twist : ℕ) :
    (ribbonFaces minor_seg major_seg section_twist).length = minor_seg * major_seg := by
  unfold ribbonFaces
  refine rangeFlatMap_length major_seg _ minor_seg ?_
  intro b hb
  simp

theorem ribbonFaces_getD (minor_seg major_seg section_twist : ℕ) (offset idx : ℕ)
    (ho : offset < minor_seg) (hidx : idx < major_seg) :
    (ribbonFaces minor_seg major_seg section_twist).getD (offset * major_seg + idx) 0 =
      idx * minor_seg + (offset * section_twist) % minor_seg := by
  unfold ribbonFaces
  have h := rangeFlatMap_getD major_seg
    (fun off => (List.range major_seg).map fun idx =>
      idx * minor_seg + (off * section_twist) % minor_seg) 0 minor_seg
    (fun a ha => by simp) offset idx ho hidx
  rw [h]
  exact rangeMap_getD _ 0 major_seg idx hidx

theorem ribbonFaces_getD_pos (minor_seg major_seg section_twist : ℕ) (p : ℕ)
    (hmaj : 0 < major_seg) (hp : p < minor_seg * major_seg) :
    (ribbonFaces minor_seg major_seg section_twist).getD p 0 =
      (p % major_seg) * minor_seg + ((p / major_seg) * section_twist) % minor_seg := by
  have hdm : p = p / major_seg * major_seg + p % major_seg := by
    have h := Nat.div_add_mod p major_seg
    rw [Nat.mul_comm] at h
    exact h.symm
  have ho : p / major_seg < minor_seg := by
    rw [Nat.div_lt_iff_lt_mul hmaj]
    exact hp
  have hidx : p % major_seg < major_seg := Nat.mod_lt _ hmaj
  conv_lhs => rw [hdm]
  exact ribbonFaces_getD minor_seg major_seg section_twist (p / major_seg)
    (p % major_seg) ho hidx

theorem mulMod_inj (m t : ℕ) (hm : 0 < m) (hcop : Nat.gcd t m = 1) (o1 o2 : ℕ)
    (h1 : o1 < m) (h2 : o2 < m) (h : (o1 * t) % m = (o2 * t) % m) : o1 = o2 := by
  have hmod : o1 * t ≡ o2 * t [MOD m] := h
  have h3 := Nat.ModEq.cancel_right_of_coprime (by rwa [Nat.gcd_comm] at hcop) hmod
  have h4 : o1 % m = o2 % m := h3
  rwa [Nat.mod_eq_of_lt h1, Nat.mod_eq_of_lt h2] at h4

theorem mulMod_surj (m t : ℕ) (hm : 0 < m) (hcop : Nat.gcd t m = 1) (r : ℕ) (hr : r < m) :
    ∃ o, o < m ∧ (o * t) % m = r := by
  have hinj : Function.Injective
      (fun o : Fin m => (⟨(o.1 * t) % m, Nat.mod_lt _ hm⟩ : Fin m)) := by
    intro a b hab
    have h := congrArg Fin.val hab
    exact Fin.ext (mulMod_inj m t hm hcop a.1 b.1 a.2 b.2 h)
  obtain ⟨o, ho⟩ := Finite.injective_iff_surjective.mp hinj ⟨r, hr⟩
  exact ⟨o.1, o.2, congrArg Fin.val ho⟩

theorem euclid_decomp_unique (m a b c d : ℕ) (hb : b < m) (hd : d < m)
    (h : a * m + b = c * m + d) : a = c ∧ b = d := by
  have hm : 0 < m := by omega
  have hbd : b = d := by
    have h1 : (a * m + b) % m = b := by
      rw [Nat.add_comm, Nat.add_mul_mod_self_right]
      exact Nat.mod_eq_of_lt hb
    have h2 : (c * m + d) % m = d := by
      rw [Nat.add_comm, Nat.add_mul_mod_self_right]
      exact Nat.mod_eq_of_lt hd
    rw [← h1, h, h2]
  refine ⟨?_, hbd⟩
  have hac : a * m = c * m := by omega
  exact Nat.eq_of_mul_eq_mul_right hm hac

theorem ribbonFace_inj (minor_seg major_seg section_twist : ℕ) (hmaj : 0 < major_seg)
    (hmin : 0 < minor_seg) (hcop : Nat.gcd section_twist minor_seg = 1) (p q : ℕ)
    (hp : p < minor_seg * major_seg) (hq : q < minor_seg * major_seg)
    (h : (p % major_seg) * minor_seg + ((p / major_seg) * section_twist) % minor_seg =
      (q % major_seg) * minor_seg + ((q / major_seg) * section_twist) % minor_seg) :
    p = q := by
  have hb1 : ((p / major_seg) * section_twist) % minor_seg < minor_seg :=
    Nat.mod_lt _ hmin
  have hb2 : ((q / major_seg) * section_twist) % minor_seg < minor_seg :=
    Nat.mod_lt _ hmin
  obtain ⟨hidx, hmod⟩ := euclid_decomp_unique minor_seg _ _ _ _ hb1 hb2 h
  have hoff : p / major_seg = q / major_seg := by
    refine mulMod_inj minor_seg section_twist hmin hcop _ _ ?_ ?_ hmod
    · rw [Nat.div_lt_iff_lt_mul hmaj]
      exact hp
    · rw [Nat.div_lt_iff_lt_mul hmaj]
      exact hq
  have hp4 : p = p / major_seg * major_seg + p % major_seg := by
    have h2 := Nat.div_add_mod p major_seg
    rw [Nat.mul_comm] at h2
    exact h2.symm
  have hq4 : q = q / major_seg * major_seg + q % major_seg := by
    have h2 := Nat.div_add_mod q major_seg
    rw [Nat.mul_comm] at h2
    exact h2.symm
  rw [hp4, hq4, hoff, hidx]

theorem ribbon_writes_length (minor_seg major_seg section_twist : ℕ) :
    (add_uvs_one_ribbon_writes minor_seg major_seg section_twist).length =
      minor_seg * major_seg := by
  unfold add_uvs_one_ribbon_writes
  rw [ribbonLoop_length, ribbonFaces_length]

theorem ribbon_writes_get? (minor_seg major_seg section_twist : ℕ) (p : ℕ)
    (hmaj : 0 < major_seg) (hp : p < minor_seg * major_seg) :
    (add_uvs_one_ribbon_writes minor_seg major_seg section_twist).get? p =
      some ⟨(p % major_seg) * minor_seg + ((p / major_seg) * section_twist) % minor_seg,
            (0 + (p : ℚ) * (1 / ((major_seg * minor_seg : ℕ) : ℚ)), 0),
            (0 + ((p : ℚ) + 1) * (1 / ((major_seg * minor_seg : ℕ) : ℚ)), 0),
            (0 + ((p : ℚ) + 1) * (1 / ((major_seg * minor_seg : ℕ) : ℚ)), 1),
            (0 + (p : ℚ) * (1 / ((major_seg * minor_seg : ℕ) : ℚ)), 1)⟩ := by
  unfold add_uvs_one_ribbon_writes
  rw [ribbonLoop_get? _ _ _ p (by rw [ribbonFaces_length]; exact hp)]
  rw [ribbonFaces_getD_pos minor_seg major_seg section_twist p hmaj hp]

/-- C4 (amended): when `sectionTwist % minorSegments ≠ 0` and additionally
`gcd(sectionTwist, minorSegments) = 1`, the ribbon mapper assigns UV
coordinates to every one of the `majorSegments*minorSegments` faces: the
face visited at helical position `k = offset*majorSegments + idx` is
`idx*minorSegments + (offset*sectionTwist) % minorSegments`; its four loop
corners receive `u` values `k*step` (corners 0, 3) and `(k+1)*step`
(corners 1, 2) with `step = 1/(majorSegments*minorSegments)`, so U spans
`[0,1]` uniformly across all faces in the helical order; `V = 0` on loop
corners 0, 1 and `V = 1` on loop corners 2, 3 for every face; and every
face index below `majorSegments*minorSegments` is of the visited form.
(Without the coprimality amendment the claim is false: see the
counterexample, where some faces are never assigned.) -/
theorem ribbon_uv_assignment (minor_seg major_seg section_twist : ℕ)
    (hmaj : 3 ≤ major_seg) (hmin : 2 ≤ minor_seg)
    (hmode : section_twist % minor_seg ≠ 0)
    (hcop : Nat.gcd section_twist minor_seg = 1) :
    (∀ offset idx, offset < minor_seg → idx < major_seg →
      applyWrites (add_uvs_one_ribbon_writes minor_seg major_seg section_twist)
          (4 * (idx * minor_seg + (offset * section_twist) % minor_seg)) =
        some (((offset * major_seg + idx : ℕ) : ℚ) *
          (1 / ((major_seg * minor_seg : ℕ) : ℚ)), 0) ∧
      applyWrites (add_uvs_one_ribbon_writes minor_seg major_seg section_twist)
          (4 * (idx * minor_seg + (offset * section_twist) % minor_seg) + 1) =
        some ((((offset * major_seg + idx : ℕ) : ℚ) + 1) *
          (1 / ((major_seg * minor_seg : ℕ) : ℚ)), 0) ∧
      applyWrites (add_uvs_one_ribbon_writes minor_seg major_seg section_twist)
          (4 * (idx * minor_seg + (offset * section_twist) % minor_seg) + 2) =
        some ((((offset * major_seg + idx : ℕ) : ℚ) + 1) *
          (1 / ((major_seg * minor_seg : ℕ) : ℚ)), 1) ∧
      applyWrites (add_uvs_one_ribbon_writes minor_seg major_seg section_twist)
          (4 * (idx * minor_seg + (offset * section_twist) % minor_seg) + 3) =
        some (((offset * major_seg + idx : ℕ) : ℚ) *
          (1 / ((major_seg * minor_seg : ℕ) : ℚ)), 1)) ∧
    (∀ f, f < major_seg * minor_seg →
      ∃ offset idx, offset < minor_seg ∧ idx < major_seg ∧
        f = idx * minor_seg + (offset * section_twist) % minor_seg) := by
  have hm0 : 0 < minor_seg := by omega
  have hM0 : 0 < major_seg := by omega
  constructor
  · intro offset idx ho hidx
    have hp : offset * major_seg + idx < minor_seg * major_seg := by
      have h1 := Nat.mul_le_mul_right major_seg (show offset + 1 ≤ minor_seg from ho)
      have he : (offset + 1) * major_seg = offset * major_seg + major_seg := by ring
      omega
    have hw := ribbon_writes_get? minor_seg major_seg section_twist
      (offset * major_seg + idx) hM0 hp
    have hpidx : (offset * major_seg + idx) % major_seg = idx := by
      rw [Nat.add_comm, Nat.add_mul_mod_self_right]
      exact Nat.mod_eq_of_lt hidx
    have hpoff : (offset * major_seg + idx) / major_seg = offset := by
      have h := Nat.add_mul_div_left idx offset hM0
      rw [Nat.div_eq_of_lt hidx] at h
      have he2 : idx + major_seg * offset = offset * major_seg + idx := by ring
      rw [he2] at h
      omega
    rw [hpidx, hpoff] at hw
    have hlast : ∀ k2 w2, offset * major_seg + idx < k2 →
        (add_uvs_one_ribbon_writes minor_seg major_seg section_twist).get? k2 = some w2 →
        w2.face ≠ idx * minor_seg + (offset * section_twist) % minor_seg := by
      intro k2 w2 hlt hk2
      have hk2len : k2 < minor_seg * major_seg := by
        obtain ⟨hl, _⟩ := List.get?_eq_some.mp hk2
        rw [ribbon_writes_length] at hl
        exact hl
      have hw2 := ribbon_writes_get? minor_seg major_seg section_twist k2 hM0 hk2len
      rw [hk2, Option.some.injEq] at hw2
      intro heq
      have hfface : w2.face = (k2 % major_seg) * minor_seg +
          ((k2 / major_seg) * section_twist) % minor_seg := by
        rw [hw2]
      have hkey : (k2 % major_seg) * minor_seg +
          ((k2 / major_seg) * section_twist) % minor_seg =
          ((offset * major_seg + idx) % major_seg) * minor_seg +
            (((offset * major_seg + idx) / major_seg) * section_twist) % minor_seg := by
        rw [hpidx, hpoff, ← hfface, heq]
      have hk2p := ribbonFace_inj minor_seg major_seg section_twist hM0 hm0 hcop k2
        (offset * major_seg + idx) hk2len hp hkey
      omega
    have happ := applyWrites_last
      (add_uvs_one_ribbon_writes minor_seg major_seg section_twist)
      (offset * major_seg + idx) _ hw hlast
    dsimp only at happ
    simp only [zero_add] at happ
    exact happ
  · intro f hf
    have hidx : f / minor_seg < major_seg := by
      rw [Nat.div_lt_iff_lt_mul hm0]
      exact hf
    obtain ⟨o, ho, hor⟩ := mulMod_surj minor_seg section_twist hm0 hcop (f % minor_seg)
      (Nat.mod_lt _ hm0)
    refine ⟨o, f / minor_seg, ho, hidx, ?_⟩
    rw [hor]
    have h := Nat.div_add_mod f minor_seg
    rw [Nat.mul_comm] at h
    omega

/-- Witness for C4 (amended) at `minorSegments = 4`, `majorSegments = 3`,
`sectionTwist = 1`. -/
theorem ribbon_uv_assignment_witness :
    (∀ offset idx, offset < 4 → idx < 3 →
      applyWrites (add_uvs_one_ribbon_writes 4 3 1) (4 * (idx * 4 + (offset * 1) % 4)) =
        some (((offset * 3 + idx : ℕ) : ℚ) * (1 / ((3 * 4 : ℕ) : ℚ)), 0) ∧
      applyWrites (add_uvs_one_ribbon_writes 4 3 1) (4 * (idx * 4 + (offset * 1) % 4) + 1) =
        some ((((offset * 3 + idx : ℕ) : ℚ) + 1) * (1 / ((3 * 4 : ℕ) : ℚ)), 0) ∧
      applyWrites (add_uvs_one_ribbon_writes 4 3 1) (4 * (idx * 4 + (offset * 1) % 4) + 2) =
        some ((((offset * 3 + idx : ℕ) : ℚ) + 1) * (1 / ((3 * 4 : ℕ) : ℚ)), 1) ∧
      applyWrites (add_uvs_one_ribbon_writes 4 3 1) (4 * (idx * 4 + (offset * 1) % 4) + 3) =
        some (((offset * 3 + idx : ℕ) : ℚ) * (1 / ((3 * 4 : ℕ) : ℚ)), 1)) ∧
    (∀ f, f < 3 * 4 →
      ∃ offset idx, offset < 4 ∧ idx < 3 ∧ f = idx * 4 + (offset * 1) % 4) :=
  ribbon_uv_assignment 4 3 1 (by decide) (by decide) (by decide) (by decide)

end TorusSpec
